import Mathlib

/-!
Verification of the WarRadio engine core against its specification.

The development shallowly embeds the playback buffer and archive of the
production pipeline, the bounded identity set of the RSS ingestion
service, the content scheduler cascade, the production-cycle
orchestrator, the aggregate feed fetch, and the bounded-concurrency
song-rendering batcher.  Every definition is translated from the
TypeScript source; asynchronous I/O outcomes are passed in as explicit
oracle values so that the control flow around them stays exactly the
source's control flow.
-/

namespace WarRadio

/- ===================================================================
   Playback Buffer and Archive (Pipeline.dequeueAudio, src part_007)
   =================================================================== -/

/-- Track kinds stored in the audio buffer (source union uses the
strings "song" and "news_block"). -/
inductive TrackType where
  | song
  | news_block
deriving DecidableEq, Repr

/-- Embedding of the source interface AudioBufferEntry.  The free-form
metadata record is modelled as an association list of strings; dates are
milliseconds since the epoch. -/
structure AudioBufferEntry where
  id : String
  type : TrackType
  title : String
  filePath : String
  durationSeconds : Option Nat
  metadata : List (String × String)
  createdAt : Nat
deriving DecidableEq, Repr

/-- The playback-relevant mutable state of the Pipeline class: the FIFO
audio buffer, the replay archive, and the round-robin archive position. -/
structure AudioState where
  audioBuffer : List AudioBufferEntry
  playedArchive : List AudioBufferEntry
  archivePosition : Nat
deriving DecidableEq, Repr

/-- Embedding of Pipeline.dequeueAudio: pop the buffer head if the
buffer is non-empty, archiving song-type tracks; otherwise replay the
archive entry at archivePosition mod archive length and advance the
position; otherwise return null. -/
def dequeueAudio (s : AudioState) : Option AudioBufferEntry × AudioState :=
  match s.audioBuffer with
  | track :: rest =>
    let archived :=
      if track.type = TrackType.song then s.playedArchive ++ [track]
      else s.playedArchive
    (some track, { s with audioBuffer := rest, playedArchive := archived })
  | [] =>
    if h : s.playedArchive.length = 0 then
      (none, s)
    else
      let track := s.playedArchive.get
        ⟨s.archivePosition % s.playedArchive.length,
         Nat.mod_lt _ (Nat.pos_of_ne_zero h)⟩
      (some track, { s with archivePosition := s.archivePosition + 1 })

/-- Embedding of the buffer push performed by Pipeline.generateSingleSong
(this.audioBuffer.push(entry)). -/
def enqueueAudio (s : AudioState) (t : AudioBufferEntry) : AudioState :=
  { s with audioBuffer := s.audioBuffer ++ [t] }

/-- Operations that touch the buffer or archive. -/
inductive AudioOp where
  | enq (t : AudioBufferEntry)
  | deq
deriving Repr

/-- Run a sequence of buffer operations, collecting the result of each
dequeue in order. -/
def runAudioOps : AudioState → List AudioOp → AudioState × List (Option AudioBufferEntry)
  | s, [] => (s, [])
  | s, AudioOp.enq t :: ops => runAudioOps (enqueueAudio s t) ops
  | s, AudioOp.deq :: ops =>
    let r := dequeueAudio s
    let rest := runAudioOps r.2 ops
    (rest.1, r.1 :: rest.2)

/-- The archive-replay events of a run: for every dequeue that is served
from the archive (buffer empty, archive non-empty), record the index
visited and the archive length at that moment. -/
def replayEvents : AudioState → List AudioOp → List (Nat × Nat)
  | _, [] => []
  | s, AudioOp.enq t :: ops => replayEvents (enqueueAudio s t) ops
  | s, AudioOp.deq :: ops =>
    if s.audioBuffer.isEmpty && !(s.playedArchive.length == 0) then
      (s.archivePosition % s.playedArchive.length, s.playedArchive.length)
        :: replayEvents (dequeueAudio s).2 ops
    else
      replayEvents (dequeueAudio s).2 ops

/-- A list of replay events is a cyclic walk without skips or reorders:
each visited index is the cyclic successor of the previous one in the
modulus space current at the later visit. -/
def cyclicWalk : List (Nat × Nat) → Bool
  | [] => true
  | [_] => true
  | (i1, _) :: (i2, l2) :: rest =>
    (i2 == (i1 + 1) % l2) && cyclicWalk ((i2, l2) :: rest)

/-- Concrete song tracks used in the buffer/archive scenarios. -/
def trkS1 : AudioBufferEntry :=
  ⟨"s1", TrackType.song, "S1", "/m/s1.mp3", none, [], 1⟩

def trkS2 : AudioBufferEntry :=
  ⟨"s2", TrackType.song, "S2", "/m/s2.mp3", none, [], 2⟩

def trkS3 : AudioBufferEntry :=
  ⟨"s3", TrackType.song, "S3", "/m/s3.mp3", none, [], 3⟩

/-- Interleaving used to refute the mid-cycle append transparency claim:
drain a two-song buffer, replay the archive through one full wrap, then
append a third song and keep dequeuing. -/
def c9trace : List AudioOp :=
  [AudioOp.deq, AudioOp.deq, AudioOp.deq, AudioOp.deq, AudioOp.deq, AudioOp.deq,
   AudioOp.enq trkS3, AudioOp.deq, AudioOp.deq]

/- ===================================================================
   Bounded identity set (BoundedSet, rss-service.ts)
   =================================================================== -/

/-- Embedding of the BoundedSet class: a JS Map from value to insertion
counter, modelled as an association list in Map iteration order
(insertion order), together with the capacity and the running counter. -/
structure BoundedSet where
  store : List (String × Nat)
  maxSize : Nat
  counter : Nat
deriving DecidableEq, Repr

/-- BoundedSet construction: empty map, counter 0. -/
def mkBoundedSet (maxSize : Nat) : BoundedSet := ⟨[], maxSize, 0⟩

/-- Map.has: is the value a key of the store. -/
def BoundedSet.has (s : BoundedSet) (v : String) : Bool :=
  s.store.any (fun p => p.1 = v)

/-- Map.size. -/
def BoundedSet.size (s : BoundedSet) : Nat := s.store.length

/-- One step of the eviction scan of BoundedSet.add: keep the entry with
the strictly smallest counter seen so far (oldestCounter starts at
Infinity, modelled by none). -/
def oldestStep (acc : Option String × Option Nat) (p : String × Nat) :
    Option String × Option Nat :=
  match acc.2 with
  | none => (some p.1, some p.2)
  | some c => if p.2 < c then (some p.1, some p.2) else acc

/-- The eviction scan over the whole store. -/
def oldestScan (l : List (String × Nat)) : Option String × Option Nat :=
  l.foldl oldestStep (none, none)

/-- Embedding of BoundedSet.add: no-op when present; otherwise, when at
capacity, delete the key found by the eviction scan (if any); then map
the value to the current counter and increment the counter. -/
def BoundedSet.add (s : BoundedSet) (v : String) : BoundedSet :=
  if s.has v then s
  else
    let s1 :=
      if s.store.length ≥ s.maxSize then
        match (oldestScan s.store).1 with
        | some k => { s with store := s.store.filter (fun p => !(p.1 = k : Bool)) }
        | none => s
      else s
    { s1 with store := s1.store ++ [(v, s.counter)], counter := s.counter + 1 }

/-- A whole sequence of add calls. -/
def BoundedSet.addAll (s : BoundedSet) (vs : List String) : BoundedSet :=
  vs.foldl BoundedSet.add s

/-- Invariant of reachable BoundedSet states: keys are distinct,
insertion counters strictly increase along iteration order and stay
below the running counter, and for a positive capacity the store never
exceeds it. -/
def BoundedSetInv (s : BoundedSet) : Prop :=
  (s.store.map Prod.fst).Nodup ∧
  (s.store.map Prod.snd).Pairwise (· < ·) ∧
  (∀ p ∈ s.store, p.2 < s.counter) ∧
  (0 < s.maxSize → s.store.length ≤ s.maxSize)

/- ===================================================================
   Content Scheduler (Scheduler class, stream-manager.ts)
   =================================================================== -/

/-- Row of the content table (db/schema).  Nullable columns are Options;
timestamps are milliseconds since the epoch; the JSON metadata column is
kept as its raw text. -/
structure Content where
  id : String
  type : String
  title : String
  artist : Option String
  duration : Option Nat
  filePath : Option String
  fileSize : Option Nat
  mimeType : Option String
  status : String
  metadata : Option String
  createdAt : Nat
  updatedAt : Nat
deriving DecidableEq, Repr

/-- Row of the schedule_slots table. -/
structure ScheduleSlot where
  id : String
  contentId : Option String
  contentType : Option String
  startTime : Nat
  endTime : Option Nat
  isRecurring : Option Bool
  recurrenceRule : Option String
  priority : Option Int
  label : Option String
  color : Option String
  createdAt : Nat
deriving DecidableEq, Repr

/-- Row of the rotation_pattern table. -/
structure RotationStep where
  id : String
  position : Nat
  contentType : String
  contentId : Option String
  selectionStrategy : Option String
  patternGroupId : String
deriving DecidableEq, Repr

/-- Row of the playback_log table. -/
structure PlaybackEntry where
  id : String
  contentId : Option String
  contentType : String
  title : Option String
  startedAt : Nat
  endedAt : Option Nat
  source : String
deriving DecidableEq, Repr

/-- In-memory override queue entry. -/
structure OverrideItem where
  id : String
  contentId : String
  title : String
  contentType : String
  urgent : Bool
deriving DecidableEq, Repr

/-- The resolved item handed to the stream loop. -/
structure ScheduledItem where
  contentId : String
  title : String
  contentType : String
  filePath : String
  duration : Nat
  source : String
deriving DecidableEq, Repr

/-- The SQLite database state visible to the Scheduler.  The settings
table is restricted to its numeric values (the scheduler reads and
writes only the numeric rotationCursor key). -/
structure DB where
  content : List Content
  scheduleSlots : List ScheduleSlot
  rotationPattern : List RotationStep
  playbackLog : List PlaybackEntry
  settings : List (String × Nat)
deriving DecidableEq, Repr

/-- Mutable Scheduler state: the in-memory override queue and rotation
cursor, plus the database it owns. -/
structure SchedState where
  overrideQueue : List OverrideItem
  rotationCursor : Nat
  db : DB
deriving DecidableEq, Repr

/-- JS string truthiness of a nullable column: present and non-empty. -/
def strTruthy : Option String → Bool
  | some s => s ≠ ""
  | none => false

/-- contentItem.duration || 180: JS || treats null and 0 as falsy. -/
def durOr180 : Option Nat → Nat
  | some d => if d = 0 then 180 else d
  | none => 180

/-- Build the ScheduledItem returned by the resolution helpers. -/
def toItem (c : Content) (src : String) : ScheduledItem :=
  ⟨c.id, c.title, c.type, c.filePath.getD "", durOr180 c.duration, src⟩

/-- The shared lookup pattern: first content row with the given id in
ready status, accepted only if its filePath is truthy (non-null,
non-empty). -/
def resolveReady (db : DB) (cid : String) : Option Content :=
  match db.content.find? (fun c => c.id = cid && c.status = "ready") with
  | some c => if strTruthy c.filePath then some c else none
  | none => none

/-- Embedding of Scheduler.checkOverrideQueue: shift the queue head,
resolve it, and recurse over the rest on failure.  Returns the resolved
item (if any) and the remaining queue. -/
def checkOverrideQueue (db : DB) : List OverrideItem → Option ScheduledItem × List OverrideItem
  | [] => (none, [])
  | item :: rest =>
    match resolveReady db item.contentId with
    | some c => (some (toItem c "override"), rest)
    | none => checkOverrideQueue db rest

/-- The ready-items query used by the random and least-recently-played
strategies: all ready rows of the type, then filtered by truthy
filePath. -/
def readyOfType (db : DB) (ty : String) : List Content :=
  (db.content.filter (fun c => c.type = ty && c.status = "ready")).filter
    (fun c => strTruthy c.filePath)

/-- startedAt of the most recent playback-log row for the content id
(orderBy startedAt desc, first row): the maximum startedAt among the
matching rows. -/
def maxStarted : List PlaybackEntry → Option Nat
  | [] => none
  | e :: rest =>
    match maxStarted rest with
    | none => some e.startedAt
    | some m => some (max e.startedAt m)

/-- playTime of a candidate: its latest log time, or 0 when it has never
been played. -/
def lastPlayTime (db : DB) (cid : String) : Nat :=
  match maxStarted (db.playbackLog.filter (fun e => e.contentId = some cid)) with
  | some t => t
  | none => 0

/-- The least-recently-played scan: leastRecent/leastRecentTime start at
null/Infinity (modelled by none) and an item replaces the current best
only when strictly less recent. -/
def lrpLoop (db : DB) : List Content → Option Content × Option Nat → Option Content × Option Nat
  | [], acc => acc
  | item :: rest, acc =>
    let pt := lastPlayTime db item.id
    let acc2 :=
      match acc.2 with
      | none => (some item, some pt)
      | some m => if pt < m then (some item, some pt) else acc
    lrpLoop db rest acc2

/-- leastRecent || items[0]. -/
def lrpPick (db : DB) (items : List Content) : Option Content :=
  match (lrpLoop db items (none, none)).1 with
  | some c => some c
  | none => items.head?

/-- The sequential strategy query: ready rows of the type ordered by
createdAt ascending, first row (no filePath filter in the query). -/
def minCreatedAt : List Content → Option Content
  | [] => none
  | c :: rest =>
    match minCreatedAt rest with
    | none => some c
    | some m => if c.createdAt ≤ m.createdAt then some c else some m

/-- Embedding of Scheduler.pickByType.  Math.random is modelled by the
rng oracle taken modulo the candidate count. -/
def pickByType (db : DB) (rng : Nat) (ty : String) (src : String)
    (strategy : String) : Option ScheduledItem :=
  let contentItem : Option Content :=
    if strategy = "random" then
      let items := readyOfType db ty
      if items.isEmpty then none else items.get? (rng % items.length)
    else if strategy = "least_recently_played" then
      let items := readyOfType db ty
      if items.isEmpty then none else lrpPick db items
    else
      minCreatedAt (db.content.filter (fun c => c.type = ty && c.status = "ready"))
  match contentItem with
  | some c => if strTruthy c.filePath then some (toItem c src) else none
  | none => none

/-- step.selectionStrategy || 'least_recently_played'. -/
def strategyOr : Option String → String
  | some s => if s = "" then "least_recently_played" else s
  | none => "least_recently_played"

/-- Embedding of Scheduler.pickForRotationStep. -/
def pickForRotationStep (db : DB) (rng : Nat) (step : RotationStep) : Option ScheduledItem :=
  if strTruthy step.contentId then
    match resolveReady db (step.contentId.getD "") with
    | some c => some (toItem c "rotation")
    | none => pickByType db rng step.contentType "rotation" (strategyOr step.selectionStrategy)
  else
    pickByType db rng step.contentType "rotation" (strategyOr step.selectionStrategy)

/-- Stable insertion keeping positions ascending. -/
def insertByPos (r : RotationStep) : List RotationStep → List RotationStep
  | [] => [r]
  | x :: xs => if r.position ≤ x.position then r :: x :: xs else x :: insertByPos r xs

/-- Stable insertion sort by position (the ORDER BY position ASC of the
rotation query). -/
def sortByPos : List RotationStep → List RotationStep
  | [] => []
  | x :: xs => insertByPos x (sortByPos xs)

/-- The default rotation pattern: rows of the default group ordered by
position ascending. -/
def sortedPattern (db : DB) : List RotationStep :=
  sortByPos (db.rotationPattern.filter (fun r => r.patternGroupId = "default"))

/-- The rotation scan: try the offsets in order, indexing the pattern at
(cursor + i) mod pattern length, and return the first offset whose step
resolves, together with the resolved item. -/
def rotationFind (db : DB) (rng : Nat) (pattern : List RotationStep) (cursor : Nat) :
    List Nat → Option (Nat × ScheduledItem)
  | [] => none
  | i :: rest =>
    match (pattern.get? ((cursor + i) % pattern.length)).bind
        (pickForRotationStep db rng) with
    | some item => some (i, item)
    | none => rotationFind db rng pattern cursor rest

/-- Embedding of Scheduler.persistCursor: update the rotationCursor
settings row in place, or insert it. -/
def persistCursor (db : DB) (c : Nat) : DB :=
  match db.settings.find? (fun p => p.1 = "rotationCursor") with
  | some _ =>
    { db with settings :=
        (db.settings.map (fun p => if p.1 = "rotationCursor" then (p.1, c) else p)) }
  | none => { db with settings := db.settings ++ [("rotationCursor", c)] }

/-- Embedding of Scheduler.checkRotation. -/
def checkRotation (st : SchedState) (rng : Nat) : Option ScheduledItem × SchedState :=
  let pattern := sortedPattern st.db
  if pattern.isEmpty then (none, st)
  else
    match rotationFind st.db rng pattern st.rotationCursor (List.range pattern.length) with
    | some (i, item) =>
      let cursor2 := (st.rotationCursor + i + 1) % pattern.length
      (some item, { st with rotationCursor := cursor2, db := persistCursor st.db cursor2 })
    | none => (none, st)

/-- Slot window filter: startTime within [now, now + 60s]. -/
def slotInWindow (now : Nat) (s : ScheduleSlot) : Bool :=
  now ≤ s.startTime && s.startTime ≤ now + 60000

/-- Strictly-better ordering of slots: priority descending with SQLite
NULLs last, then startTime ascending. -/
def slotBetter (a b : ScheduleSlot) : Bool :=
  match a.priority, b.priority with
  | some pa, some pb => pa > pb || (pa = pb && a.startTime < b.startTime)
  | some _, none => true
  | none, some _ => false
  | none, none => a.startTime < b.startTime

/-- First row of the ordered slot query. -/
def pickSlot (slots : List ScheduleSlot) : Option ScheduleSlot :=
  slots.foldl
    (fun acc s =>
      match acc with
      | none => some s
      | some b => if slotBetter s b then some s else acc)
    none

/-- Embedding of Scheduler.checkScheduledSlots (now is the clock value
in milliseconds).  Returns the resolved item and the database, from
which a used non-recurring slot has been deleted. -/
def checkScheduledSlots (db : DB) (now rng : Nat) : Option ScheduledItem × DB :=
  match pickSlot (db.scheduleSlots.filter (slotInWindow now)) with
  | none => (none, db)
  | some slot =>
    match (if strTruthy slot.contentId then resolveReady db (slot.contentId.getD "") else none) with
    | some c =>
      let db2 :=
        if slot.isRecurring = some true then db
        else { db with scheduleSlots := db.scheduleSlots.filter (fun x => !(x.id = slot.id : Bool)) }
      (some (toItem c "scheduled"), db2)
    | none =>
      match slot.contentType with
      | some t =>
        if t ≠ "" && t ≠ "any" then (pickByType db rng t "scheduled" "least_recently_played", db)
        else (none, db)
      | none => (none, db)

/-- Embedding of Scheduler.getNextItem: override queue, then scheduled
slots, then rotation. -/
def getNextItem (st : SchedState) (now rng : Nat) : Option ScheduledItem × SchedState :=
  let o := checkOverrideQueue st.db st.overrideQueue
  match o.1 with
  | some item => (some item, { st with overrideQueue := o.2 })
  | none =>
    let st1 : SchedState := { st with overrideQueue := o.2 }
    let s := checkScheduledSlots st1.db now rng
    match s.1 with
    | some item => (some item, { st1 with db := s.2 })
    | none =>
      checkRotation { st1 with db := s.2 } rng

/-- Embedding of the Scheduler constructor: empty override queue,
rotation cursor loaded from the persisted settings row when present. -/
def mkScheduler (db : DB) : SchedState :=
  ⟨[],
   (match db.settings.find? (fun p => p.1 = "rotationCursor") with
    | some p => p.2
    | none => 0),
   db⟩

/-- Embedding of Scheduler.logPlayback: append a playback_log row (id is
the generated nanoid, now the clock value). -/
def logPlayback (db : DB) (item : ScheduledItem) (rowId : String) (now : Nat) : DB :=
  { db with playbackLog := db.playbackLog ++
      [⟨rowId, some item.contentId, item.contentType, some item.title, now, none, item.source⟩] }

/-- Content rows used in the scheduler scenarios. -/
def cSong1 : Content :=
  ⟨"c1", "song", "Song One", none, some 200, some "/media/c1.mp3", none, none,
   "ready", none, 10, 10⟩

def cSong2 : Content :=
  ⟨"c2", "song", "Song Two", none, some 180, some "/media/c2.mp3", none, none,
   "ready", none, 20, 20⟩

def cSong3 : Content :=
  ⟨"c3", "song", "Song Three", none, some 240, some "/media/c3.mp3", none, none,
   "ready", none, 30, 30⟩

/-- Database of the C4 witness: the spec's 7-step rotation pattern
song, song, song, news, song, song, ad (default strategies), one ready
song, no persisted cursor (so a fresh Scheduler starts at 0). -/
def rotDb7 : DB :=
  ⟨[cSong1], [],
   [⟨"r0", 0, "song", none, none, "default"⟩,
    ⟨"r1", 1, "song", none, none, "default"⟩,
    ⟨"r2", 2, "song", none, none, "default"⟩,
    ⟨"r3", 3, "news_block", none, none, "default"⟩,
    ⟨"r4", 4, "song", none, none, "default"⟩,
    ⟨"r5", 5, "song", none, none, "default"⟩,
    ⟨"r6", 6, "ad", none, none, "default"⟩],
   [], []⟩

/-- Recursive form of the least-recently-played scan once a best
candidate exists: an item replaces the best only when strictly less
recently played. -/
def lrpBest (db : DB) (a : Content) (m : Nat) : List Content → Content × Nat
  | [] => (a, m)
  | c :: rest =>
    if lastPlayTime db c.id < m then lrpBest db c (lastPlayTime db c.id) rest
    else lrpBest db a m rest

/-- Candidates of the C5 scenario: P played at 1, Q never played,
R played at 2. -/
def cP : Content :=
  ⟨"p", "song", "P", none, some 100, some "/m/p.mp3", none, none, "ready", none, 1, 1⟩

def cQ : Content :=
  ⟨"q", "song", "Q", none, some 100, some "/m/q.mp3", none, none, "ready", none, 2, 2⟩

def cR : Content :=
  ⟨"r", "song", "R", none, some 100, some "/m/r.mp3", none, none, "ready", none, 3, 3⟩

def dbPQR : DB :=
  ⟨[cP, cQ, cR], [], [],
   [⟨"l1", some "p", "song", some "P", 1, none, "rotation"⟩,
    ⟨"l2", some "r", "song", some "R", 2, none, "rotation"⟩], []⟩

/- ===================================================================
   Ingestion fetch (RssService.fetchOnce, withRetry)
   =================================================================== -/

/-- Embedding of the NewsArticle interface (rss-service). -/
structure NewsArticle where
  id : String
  source : String
  title : String
  description : String
  link : String
  publishedAt : Nat
  fetchedAt : Nat
deriving DecidableEq, Repr

/-- Embedding of the FeedConfig interface. -/
structure FeedConfig where
  url : String
  name : String
  enabled : Bool
deriving DecidableEq, Repr

/-- Embedding of withRetry over the outcomes of its successive
attempts (list length = maxAttempts): return the first success, rethrow
the error of the final attempt, and fall through to the unreachable
error when no attempt is allowed. -/
def withRetry {α : Type} : List (Except String α) → Except String α
  | [] => Except.error "Unreachable"
  | [a] => a
  | a :: b :: rest =>
    match a with
    | Except.ok v => Except.ok v
    | Except.error _ => withRetry (b :: rest)

/-- The aggregation loop of fetchOnce over the per-feed settle results:
push the articles of every fulfilled feed, skip rejected ones. -/
def fetchOnceAgg (outcomes : List (Except String (List NewsArticle))) : List NewsArticle :=
  outcomes.foldl
    (fun acc r =>
      match r with
      | Except.ok as => acc ++ as
      | Except.error _ => acc)
    []

/-- Embedding of RssService.fetchOnce: fetch all enabled feeds (each
feed's network outcome given by the oracle), then aggregate the
fulfilled results in feed order. -/
def fetchOnce (feeds : List FeedConfig)
    (outcome : FeedConfig → Except String (List NewsArticle)) : List NewsArticle :=
  fetchOnceAgg ((feeds.filter (fun f => f.enabled)).map outcome)

/-- The articles a single settle result contributes to the aggregate. -/
def feedContribution : Except String (List NewsArticle) → List NewsArticle
  | Except.ok as => as
  | Except.error _ => []

/- ===================================================================
   Production cycle orchestrator (Pipeline.runProductionCycle,
   Pipeline.generateSongBatch / generateSingleSong, src part_007)
   =================================================================== -/

/-- Embedding of the GenreDefinition interface. -/
structure GenreDefinition where
  name : String
  sunoStyle : String
  claudePersonality : String
  verseCount : Nat
  hasChorus : Bool
  hasBridge : Bool
  weight : Nat
deriving DecidableEq, Repr

/-- Embedding of the SynthesizedStory interface. -/
structure SynthesizedStory where
  headline : String
  summary : String
  angle : String
  sourceArticleIds : List String
  importance : Nat
deriving DecidableEq, Repr

/-- Embedding of the GeneratedLyrics interface. -/
structure GeneratedLyrics where
  title : String
  lyrics : String
  genre : GenreDefinition
  storyHeadline : String
  storyAngle : String
  generatedAt : Nat
deriving DecidableEq, Repr

/-- Embedding of the CycleResult interface. -/
structure CycleResult where
  articlesScraped : Nat
  storiesSynthesized : Nat
  lyricsGenerated : Nat
  songsProduced : Nat
  errors : List String
deriving DecidableEq, Repr

/-- SUNO_CONCURRENCY = 2: max concurrent Suno generation requests. -/
def SUNO_CONCURRENCY : Nat := 2

/-- The slice(i, i + SUNO_CONCURRENCY) batching of the generateSongBatch
loop, with SUNO_CONCURRENCY = 2. -/
def chunks2 {α : Type} : List α → List (List α)
  | [] => []
  | [a] => [[a]]
  | a :: b :: rest => [a, b] :: chunks2 rest

/-- Outcomes of the awaited external calls of one production cycle. -/
structure CycleOracle where
  fetch : Except String (List NewsArticle)
  synth : Except String (List SynthesizedStory)
  lyricsBatch : Except String (List GeneratedLyrics)
  sunoReady : Bool
  songOutcome : GeneratedLyrics → Except String Unit
  running : Bool

/-- Embedding of Pipeline.generateSongBatch: process the lyrics in
batches of SUNO_CONCURRENCY, joining each batch with per-task
success/failure capture; a task failure only appends an error string.
The running flag guards every batch (the loop breaks when the pipeline
stops). -/
def generateSongBatch (o : CycleOracle) (lyrics : List GeneratedLyrics)
    (errors : List String) : Nat × List String :=
  if o.running then
    (chunks2 lyrics).foldl
      (fun acc batch =>
        batch.foldl
          (fun acc2 l =>
            match o.songOutcome l with
            | Except.ok _ => (acc2.1 + 1, acc2.2)
            | Except.error e => (acc2.1, acc2.2 ++ ["Song generation failed: " ++ e]))
          acc)
      (0, errors)
  else (0, errors)

/-- Embedding of Pipeline.runProductionCycle, returning the CycleResult
together with the list of currentPhase assignments in order.  Every
awaited call is wrapped exactly as in the source, so the function is
total: a cycle always produces a result and never throws. -/
def runProductionCycle (o : CycleOracle) : CycleResult × List String :=
  match o.fetch with
  | Except.error e =>
    (⟨0, 0, 0, 0, ["RSS fetch failed: " ++ e]⟩, ["scraping", "idle"])
  | Except.ok articles =>
    if articles.length = 0 then
      (⟨0, 0, 0, 0, []⟩, ["scraping", "idle"])
    else
      match o.synth with
      | Except.error e =>
        (⟨articles.length, 0, 0, 0, ["News synthesis failed: " ++ e]⟩,
         ["scraping", "synthesizing", "idle"])
      | Except.ok stories =>
        let lyricsStep : List GeneratedLyrics × List String :=
          match o.lyricsBatch with
          | Except.ok ls => (ls, [])
          | Except.error e => ([], ["Batch lyrics failed: " ++ e])
        let songStep : Nat × List String :=
          if o.sunoReady then generateSongBatch o lyricsStep.1 lyricsStep.2
          else (0, lyricsStep.2 ++
            ["Suno not initialized — skipping song generation. Run: npm run suno:login"])
        (⟨articles.length, stories.length, lyricsStep.1.length, songStep.1, songStep.2⟩,
         ["scraping", "synthesizing", "lyrics", "generating_songs", "idle"])

/- ===================================================================
   In-flight render counter bound (C8)
   =================================================================== -/

/-- Counter events of a cycle's rendering phase: generateSingleSong
increments pendingGeneration synchronously on entry (before its first
await) and decrements it in its finally block. -/
inductive RenderEvent where
  | start
  | finish
deriving DecidableEq, Repr

/-- One batch of n concurrently launched render tasks: batch.map calls
every generateSingleSong synchronously, so all n increments happen
before any settlement; the n decrements follow before
Promise.allSettled resolves and the loop moves on. -/
def batchEvents (n : Nat) : List RenderEvent :=
  List.replicate n RenderEvent.start ++ List.replicate n RenderEvent.finish

/-- The counter-event trace of a whole cycle's rendering phase: the
batches are awaited one after the other, and the loop may break after
any batch (running flag), hence the arbitrary prefix. -/
def cycleRenderTrace (lyrics : List GeneratedLyrics) (k : Nat) : List RenderEvent :=
  (((chunks2 lyrics).take k).map (fun b => batchEvents b.length)).flatten

/-- Counter value after a list of events, starting from p. -/
def pendingAfter : Nat → List RenderEvent → Nat
  | p, [] => p
  | p, RenderEvent.start :: es => pendingAfter (p + 1) es
  | p, RenderEvent.finish :: es => pendingAfter (p - 1) es

/-- Maximum counter value along a list of events, starting from p. -/
def pendingMax : Nat → List RenderEvent → Nat
  | p, [] => p
  | p, RenderEvent.start :: es => max p (pendingMax (p + 1) es)
  | p, RenderEvent.finish :: es => max p (pendingMax (p - 1) es)

/-- Helper: a run of dequeues against an empty buffer replays the
archive entry at position + k modulo the (unchanged) archive length, for
the k-th dequeue. -/
theorem runAudioOps_replay (n : Nat) : ∀ s : AudioState, s.audioBuffer = [] →
    (runAudioOps s (List.replicate n AudioOp.deq)).2 =
      (List.range n).map (fun k =>
        s.playedArchive[(s.archivePosition + k) % s.playedArchive.length]?) := by
  induction n with
  | zero => intro s _; simp [runAudioOps]
  | succ n ih =>
    intro s hbuf
    obtain ⟨buf, arch, pos⟩ := s
    simp only at hbuf
    subst hbuf
    by_cases h : arch.length = 0
    · have harch : arch = [] := List.length_eq_zero.mp h
      subst harch
      have hd : dequeueAudio ⟨[], [], pos⟩ = (none, ⟨[], [], pos⟩) := rfl
      simp only [List.replicate_succ, runAudioOps, hd]
      rw [ih ⟨[], [], pos⟩ rfl]
      simp [List.range_succ_eq_map, List.map_map, Function.comp_def]
    · simp only [List.replicate_succ, runAudioOps, dequeueAudio, dif_neg h]
      rw [ih ⟨[], arch, pos + 1⟩ rfl]
      simp only [List.range_succ_eq_map, List.map_map, List.map_cons, Function.comp,
        List.cons.injEq]
      constructor
      · rw [List.getElem?_eq_getElem (by exact Nat.mod_lt _ (Nat.pos_of_ne_zero h))]
        simp [List.get_eq_getElem]
      · apply List.map_congr_left
        intro k _
        have hk : pos + 1 + k = pos + (k + 1) := by omega
        simp [hk]

/-- Helper: dequeuing exactly the buffer length pops the whole buffer in
FIFO order. -/
theorem runAudioOps_fifo : ∀ (buf : List AudioBufferEntry) (s : AudioState),
    s.audioBuffer = buf →
    (runAudioOps s (List.replicate buf.length AudioOp.deq)).2 = buf.map some := by
  intro buf
  induction buf with
  | nil => intro s _; simp [runAudioOps]
  | cons t rest ih =>
    intro s hbuf
    obtain ⟨buf, arch, pos⟩ := s
    simp only at hbuf
    subst hbuf
    simp only [List.length_cons, List.replicate_succ, runAudioOps, dequeueAudio]
    rw [ih _ rfl]
    simp

/-- C1: starting from a buffer holding exactly the two songs S1, S2 and
an empty archive, four successive dequeues return S1, S2, S1, S2, and
after the first two the archive equals the list S1, S2: fresh tracks
drain FIFO and are archived, then playback cycles through the archive. -/
theorem dequeueAudio_two_songs_cycle :
    (runAudioOps ⟨[trkS1, trkS2], [], 0⟩
        [AudioOp.deq, AudioOp.deq, AudioOp.deq, AudioOp.deq]).2 =
      [some trkS1, some trkS2, some trkS1, some trkS2]
    ∧ (runAudioOps ⟨[trkS1, trkS2], [], 0⟩ [AudioOp.deq, AudioOp.deq]).1.playedArchive =
      [trkS1, trkS2] := by
  constructor <;> decide

/-- C9 counterexample: after the archive walk has wrapped, an append does
not extend the modulus space transparently.  Draining the buffer of S1,
S2, replaying the two-entry archive through one full wrap, then
dequeuing a freshly enqueued song S3 yields the replay-event trace
(0,2), (1,2), (0,2), (1,2), (1,3): the final replay visits index 1 right
after index 1, repeating S2 and skipping entries in cyclic order, so the
walk is not a skip-free cyclic walk even though the archive holds the
three entries S1, S2, S3. -/
theorem dequeueAudio_midcycle_append_not_cyclic :
    replayEvents ⟨[trkS1, trkS2], [], 0⟩ c9trace = [(0, 2), (1, 2), (0, 2), (1, 2), (1, 3)]
    ∧ (runAudioOps ⟨[trkS1, trkS2], [], 0⟩ c9trace).1.playedArchive = [trkS1, trkS2, trkS3]
    ∧ cyclicWalk (replayEvents ⟨[trkS1, trkS2], [], 0⟩ c9trace) = false := by
  refine ⟨by decide, by decide, by decide⟩

/-- C9 amended: the buffer itself is strict FIFO, and the archive replay
is a fixed cyclic walk that never skips or reorders entries as long as
no append lands after the walk has wrapped: with an empty buffer the
k-th replay visits index position + k modulo the archive length, and an
append made while archivePosition is still below the archive length
leaves the pending walk position untouched (the next replay visits
exactly the entry it would have visited without the append). -/
theorem dequeueAudio_walk_amended (s : AudioState) (n : Nat) (t : AudioBufferEntry) :
    (s.audioBuffer = [] →
      (runAudioOps s (List.replicate n AudioOp.deq)).2 =
        (List.range n).map (fun k =>
          s.playedArchive[(s.archivePosition + k) % s.playedArchive.length]?))
    ∧ (s.audioBuffer = [t] → t.type = TrackType.song →
        s.archivePosition < s.playedArchive.length →
        (runAudioOps s [AudioOp.deq, AudioOp.deq]).2 =
          [some t, s.playedArchive[s.archivePosition]?])
    ∧ (runAudioOps s (List.replicate s.audioBuffer.length AudioOp.deq)).2 =
        s.audioBuffer.map some := by
  refine ⟨runAudioOps_replay n s, ?_, runAudioOps_fifo s.audioBuffer s rfl⟩
  intro hbuf hsong hpos
  obtain ⟨buf, arch, pos⟩ := s
  simp only at hbuf hpos
  subst hbuf
  have h1 : dequeueAudio ⟨[t], arch, pos⟩ = (some t, ⟨[], arch ++ [t], pos⟩) := by
    simp [dequeueAudio, hsong]
  have hlen : ¬(arch ++ [t]).length = 0 := by simp
  have hmod : pos % (arch ++ [t]).length = pos := by
    apply Nat.mod_eq_of_lt
    simp only [List.length_append, List.length_cons, List.length_nil]
    omega
  simp only [runAudioOps, dequeueAudio, hsong, eq_self_iff_true, if_true, dif_neg hlen,
    List.get_eq_getElem, hmod, List.cons.injEq, and_true, true_and]
  rw [List.getElem?_eq_getElem hpos]
  exact congrArg some (List.getElem_append_left hpos)

/-- Witness for the amended C9 theorem: with archive S1, S2, position 0
and fresh song S3 in the buffer, the next two dequeues return S3 then
S1 — the append did not disturb the pending walk. -/
theorem dequeueAudio_walk_amended_witness :
    (runAudioOps ⟨[trkS3], [trkS1, trkS2], 0⟩ [AudioOp.deq, AudioOp.deq]).2 =
      [some trkS3, some trkS1] := by
  have h := (dequeueAudio_walk_amended ⟨[trkS3], [trkS1, trkS2], 0⟩ 2 trkS3).2.1
    rfl rfl (by decide)
  rw [h]
  decide

theorem oldestScan_keeps (t : List (String × Nat)) :
    ∀ (a : String) (c : Nat), (∀ q ∈ t, ¬q.2 < c) →
    t.foldl oldestStep (some a, some c) = (some a, some c) := by
  induction t with
  | nil => intro a c _; rfl
  | cons q t ih =>
    intro a c h
    have hq : ¬q.2 < c := h q (List.mem_cons_self q t)
    simp only [List.foldl_cons, oldestStep, if_neg hq]
    exact ih a c (fun r hr => h r (List.mem_cons_of_mem q hr))

/-- With strictly increasing counters the eviction scan returns the
head: the entry with the smallest insertion sequence number. -/
theorem oldestScan_head (p : String × Nat) (t : List (String × Nat))
    (hp : ((p :: t).map Prod.snd).Pairwise (· < ·)) :
    oldestScan (p :: t) = (some p.1, some p.2) := by
  have hlt : ∀ q ∈ t, ¬q.2 < p.2 := by
    intro q hq
    have := (List.pairwise_cons.mp hp).1 q.2 (List.mem_map_of_mem Prod.snd hq)
    omega
  simp only [oldestScan, List.foldl_cons, oldestStep]
  exact oldestScan_keeps t p.1 p.2 hlt

theorem filter_out_head (p : String × Nat) (t : List (String × Nat))
    (hn : ((p :: t).map Prod.fst).Nodup) :
    (p :: t).filter (fun q => !(q.1 = p.1 : Bool)) = t := by
  have hne : ∀ q ∈ t, q.1 ≠ p.1 := by
    intro q hq
    have := (List.nodup_cons.mp hn).1
    intro hcontra
    exact this (hcontra ▸ List.mem_map_of_mem Prod.fst hq)
  simp only [List.filter_cons]
  rw [if_neg (by simp)]
  apply List.filter_eq_self.mpr
  intro q hq
  simp [hne q hq]

theorem has_eq_false_iff (s : BoundedSet) (v : String) :
    s.has v = false ↔ ∀ p ∈ s.store, p.1 ≠ v := by
  simp [BoundedSet.has]

theorem nodup_keys_append (store : List (String × Nat)) (v : String) (c : Nat)
    (hn : (store.map Prod.fst).Nodup) (hfresh : ∀ p ∈ store, p.1 ≠ v) :
    ((store ++ [(v, c)]).map Prod.fst).Nodup := by
  rw [List.map_append]
  refine List.Nodup.append hn (by simp) ?_
  intro a ha hb
  simp only [List.map_cons, List.map_nil, List.mem_singleton] at hb
  obtain ⟨p, hp, hpa⟩ := List.mem_map.mp ha
  exact hfresh p hp (hpa.trans hb)

theorem pairwise_ctr_append (store : List (String × Nat)) (v : String) (c : Nat)
    (hp : (store.map Prod.snd).Pairwise (· < ·)) (hc : ∀ p ∈ store, p.2 < c) :
    ((store ++ [(v, c)]).map Prod.snd).Pairwise (· < ·) := by
  rw [List.map_append]
  refine List.pairwise_append.mpr ⟨hp, by simp, ?_⟩
  intro a ha b hb
  simp only [List.map_cons, List.map_nil, List.mem_singleton] at hb
  subst hb
  obtain ⟨p, hpm, hpa⟩ := List.mem_map.mp ha
  exact hpa ▸ hc p hpm

theorem ctr_bound_append (store : List (String × Nat)) (v : String) (c : Nat)
    (hc : ∀ p ∈ store, p.2 < c) :
    ∀ p ∈ store ++ [(v, c)], p.2 < c + 1 := by
  intro p hp
  rcases List.mem_append.mp hp with h | h
  · exact Nat.lt_succ_of_lt (hc p h)
  · simp only [List.mem_singleton] at h
    subst h
    omega

/-- BoundedSetInv is preserved by add. -/
theorem add_inv (s : BoundedSet) (v : String) (h : BoundedSetInv s) :
    BoundedSetInv (s.add v) := by
  obtain ⟨store, msize, ctr⟩ := s
  obtain ⟨hnodup, hpair, hctr, hlen⟩ := h
  simp only at hnodup hpair hctr hlen
  by_cases hv : BoundedSet.has ⟨store, msize, ctr⟩ v
  · simp only [BoundedSet.add, if_pos hv]
    exact ⟨hnodup, hpair, hctr, hlen⟩
  · have hfresh : ∀ p ∈ store, p.1 ≠ v := by
      have h0 : BoundedSet.has ⟨store, msize, ctr⟩ v = false := Bool.eq_false_iff.mpr hv
      simpa [BoundedSet.has] using h0
    simp only [BoundedSet.add, if_neg hv]
    by_cases hcap : store.length ≥ msize
    · simp only [if_pos hcap]
      cases store with
      | nil =>
        simp only [oldestScan, List.foldl_nil]
        refine ⟨by simp, by simp, ?_, ?_⟩
        · intro p hp
          simp only [List.nil_append, List.mem_singleton] at hp
          subst hp
          exact Nat.lt_succ_self ctr
        · intro hpos
          have hm : (0 : Nat) < msize := hpos
          have h0 : msize = 0 := by simpa using hcap
          exact absurd hm (by omega)
      | cons p t =>
        rw [oldestScan_head p t hpair]
        simp only [filter_out_head p t hnodup]
        have htn : (t.map Prod.fst).Nodup := (List.nodup_cons.mp hnodup).2
        have htp : (t.map Prod.snd).Pairwise (· < ·) := (List.pairwise_cons.mp hpair).2
        have htc : ∀ q ∈ t, q.2 < ctr := fun q hq => hctr q (List.mem_cons_of_mem p hq)
        have htf : ∀ q ∈ t, q.1 ≠ v := fun q hq => hfresh q (List.mem_cons_of_mem p hq)
        refine ⟨nodup_keys_append t v ctr htn htf,
                pairwise_ctr_append t v ctr htp htc,
                ctr_bound_append t v ctr htc, ?_⟩
        intro hpos
        have := hlen hpos
        simp only [List.length_append, List.length_cons, List.length_nil] at this ⊢
        omega
    · simp only [if_neg hcap]
      refine ⟨nodup_keys_append store v ctr hnodup hfresh,
              pairwise_ctr_append store v ctr hpair hctr,
              ctr_bound_append store v ctr hctr, ?_⟩
      intro _
      simp only [List.length_append, List.length_cons, List.length_nil]
      omega

/-- The invariant is preserved by any sequence of adds. -/
theorem addAll_inv_of (vs : List String) :
    ∀ s : BoundedSet, BoundedSetInv s → BoundedSetInv (s.addAll vs) := by
  induction vs with
  | nil => intro s h; exact h
  | cons v vs ih =>
    intro s h
    rw [BoundedSet.addAll, List.foldl_cons]
    exact ih (s.add v) (add_inv s v h)

/-- Every state reached from an empty set by a sequence of adds
satisfies the invariant. -/
theorem addAll_inv (n : Nat) (vs : List String) :
    BoundedSetInv ((mkBoundedSet n).addAll vs) := by
  apply addAll_inv_of
  refine ⟨by simp [mkBoundedSet], by simp [mkBoundedSet], ?_, by simp [mkBoundedSet]⟩
  intro p hp
  simp [mkBoundedSet] at hp

/-- Adding never changes the capacity field. -/
theorem add_maxSize (s : BoundedSet) (v : String) : (s.add v).maxSize = s.maxSize := by
  simp only [BoundedSet.add]
  by_cases hv : s.has v
  · simp [hv]
  · simp only [if_neg hv]
    by_cases hcap : s.store.length ≥ s.maxSize
    · simp only [if_pos hcap]
      cases hscan : (oldestScan s.store).1 <;> rfl
    · simp only [if_neg hcap]

/-- A set built from empty by adds keeps its construction capacity. -/
theorem addAll_maxSize (n : Nat) (vs : List String) :
    ((mkBoundedSet n).addAll vs).maxSize = n := by
  suffices h : ∀ s : BoundedSet, (s.addAll vs).maxSize = s.maxSize by
    simpa [mkBoundedSet] using h (mkBoundedSet n)
  induction vs with
  | nil => intro s; rfl
  | cons v vs ih =>
    intro s
    rw [BoundedSet.addAll, List.foldl_cons]
    exact (ih (s.add v)).trans (add_maxSize s v)

/-- C2 counterexample: with capacity 0 the claimed bound fails.  A
single add to an empty set of capacity 0 finds nothing to evict (the
scan over the empty store yields no key) and still inserts, so the size
reaches 1 > 0. -/
theorem boundedSet_capacity_zero_exceeded :
    ¬(((mkBoundedSet 0).addAll ["A"]).size ≤ 0) := by decide

/-- C2 amended (capacity restricted to N ≥ 1): for every add sequence
from empty the size stays at most N; adding a present value is a no-op;
adding a fresh value below capacity appends it with the current
insertion counter and evicts nothing; adding a fresh value at capacity
removes exactly the first entry — whose insertion sequence number is
strictly smallest — and appends the new value; and with capacity 3 and
adds A, B, C, D the final membership is exactly B, C, D in order. -/
theorem boundedSet_bounded_amended (n : Nat) (hn : 1 ≤ n) (vs : List String)
    (v : String) (s : BoundedSet) (hs : s = (mkBoundedSet n).addAll vs) :
    s.size ≤ n
    ∧ (s.has v = true → s.add v = s)
    ∧ (s.has v = false → s.size < n →
        (s.add v).store = s.store ++ [(v, s.counter)])
    ∧ (s.has v = false → n ≤ s.size →
        ∃ p t, s.store = p :: t ∧ (s.add v).store = t ++ [(v, s.counter)] ∧
          ∀ q ∈ t, p.2 < q.2)
    ∧ ((mkBoundedSet 3).addAll ["A", "B", "C", "D"]).store.map Prod.fst
        = ["B", "C", "D"] := by
  have inv : BoundedSetInv s := hs ▸ addAll_inv n vs
  have hms : s.maxSize = n := hs ▸ addAll_maxSize n vs
  clear hs
  obtain ⟨store, msize, ctr⟩ := s
  obtain ⟨hnodup, hpair, hctr, hlenb⟩ := inv
  simp only at hnodup hpair hctr hlenb
  have hm : msize = n := hms
  refine ⟨?_, ?_, ?_, ?_, by decide⟩
  · have hb : store.length ≤ msize := hlenb (by omega)
    show store.length ≤ n
    omega
  · intro hhas
    simp [BoundedSet.add, hhas]
  · intro hvF hsz
    have hv' : ¬(BoundedSet.has ⟨store, msize, ctr⟩ v = true) := by simp [hvF]
    have hszn : store.length < n := hsz
    have hcap : ¬(store.length ≥ msize) := by omega
    simp [BoundedSet.add, if_neg hv', if_neg hcap]
  · intro hvF hsz
    have hv' : ¬(BoundedSet.has ⟨store, msize, ctr⟩ v = true) := by simp [hvF]
    have hszn : n ≤ store.length := hsz
    have hcap : store.length ≥ msize := by omega
    cases store with
    | nil =>
      simp only [List.length_nil] at hszn
      omega
    | cons p t =>
      refine ⟨p, t, rfl, ?_, ?_⟩
      · show (BoundedSet.add ⟨p :: t, msize, ctr⟩ v).store = t ++ [(v, ctr)]
        simp only [BoundedSet.add, if_neg hv', if_pos hcap,
          oldestScan_head p t hpair, filter_out_head p t hnodup]
      · intro q hq
        exact (List.pairwise_cons.mp hpair).1 q.2 (List.mem_map_of_mem Prod.snd hq)

/-- Witness for the amended C2 theorem at capacity 3 with adds
A, B, C, D. -/
theorem boundedSet_bounded_amended_witness :
    ((mkBoundedSet 3).addAll ["A", "B", "C", "D"]).size ≤ 3 :=
  (boundedSet_bounded_amended 3 (by decide) ["A", "B", "C", "D"] "C"
    ((mkBoundedSet 3).addAll ["A", "B", "C", "D"]) rfl).1

theorem ovq_all_none (db : DB) : ∀ q : List OverrideItem,
    (∀ x ∈ q, resolveReady db x.contentId = none) →
    checkOverrideQueue db q = (none, []) := by
  intro q
  induction q with
  | nil => intro _; rfl
  | cons a rest ih =>
    intro h
    have ha := h a (List.mem_cons_self a rest)
    simp only [checkOverrideQueue, ha]
    exact ih (fun x hx => h x (List.mem_cons_of_mem a hx))

theorem ovq_first_resolvable (db : DB) : ∀ (q : List OverrideItem) (j : Nat)
    (it : OverrideItem) (c : Content),
    (∀ x ∈ q.take j, resolveReady db x.contentId = none) →
    q.get? j = some it → resolveReady db it.contentId = some c →
    checkOverrideQueue db q = (some (toItem c "override"), q.drop (j + 1)) := by
  intro q
  induction q with
  | nil =>
    intro j it c _ hget _
    simp at hget
  | cons a rest ih =>
    intro j it c hskip hget hres
    cases j with
    | zero =>
      simp only [List.get?_cons_zero, Option.some.injEq] at hget
      subst hget
      simp only [checkOverrideQueue, hres, List.drop_succ_cons, List.drop_zero]
    | succ k =>
      have ha : resolveReady db a.contentId = none := by
        apply hskip a
        simp [List.take_succ_cons]
      have hrest : ∀ x ∈ rest.take k, resolveReady db x.contentId = none := by
        intro x hx
        apply hskip x
        simp [List.take_succ_cons, hx]
      simp only [List.get?_cons_succ] at hget
      simp only [checkOverrideQueue, ha, List.drop_succ_cons]
      exact ih k it c hrest hget hres

/-- C10: an override entry whose content is missing or not ready is
shifted off the queue before resolution and never re-inserted: a single
getNextItem call consumes every unresolvable entry before the first
resolvable one (leaving exactly the queue suffix past it), and consumes
the whole queue when nothing resolves, so skipped entries are not
retried on later calls. -/
theorem checkOverrideQueue_drops_unresolvable (db : DB) (q : List OverrideItem)
    (j : Nat) (it : OverrideItem) (c : Content) :
    ((∀ x ∈ q, resolveReady db x.contentId = none) →
      checkOverrideQueue db q = (none, []))
    ∧ ((∀ x ∈ q.take j, resolveReady db x.contentId = none) →
        q.get? j = some it → resolveReady db it.contentId = some c →
        checkOverrideQueue db q = (some (toItem c "override"), q.drop (j + 1))) :=
  ⟨ovq_all_none db q, ovq_first_resolvable db q j it c⟩

/-- Witness for C10: a queue whose first two entries reference missing
or not-ready content and whose third resolves. -/
theorem checkOverrideQueue_drops_unresolvable_witness :
    checkOverrideQueue ⟨[cSong1], [], [], [], []⟩
      [⟨"o1", "missing", "A", "song", false⟩, ⟨"o2", "also-missing", "B", "song", false⟩,
       ⟨"o3", "c1", "C", "song", false⟩]
      = (some (toItem cSong1 "override"), []) := by
  have h := (checkOverrideQueue_drops_unresolvable ⟨[cSong1], [], [], [], []⟩
    [⟨"o1", "missing", "A", "song", false⟩, ⟨"o2", "also-missing", "B", "song", false⟩,
     ⟨"o3", "c1", "C", "song", false⟩]
    2 ⟨"o3", "c1", "C", "song", false⟩ cSong1).2
    (by decide) (by decide) (by decide)
  rw [h]
  decide

theorem ovq_some_of_mem (db : DB) : ∀ q : List OverrideItem,
    (∃ x ∈ q, (resolveReady db x.contentId).isSome) →
    ∃ c q2, checkOverrideQueue db q = (some (toItem c "override"), q2) := by
  intro q
  induction q with
  | nil => intro h; simp at h
  | cons a rest ih =>
    intro h
    cases hres : resolveReady db a.contentId with
    | some c =>
      refine ⟨c, rest, ?_⟩
      simp only [checkOverrideQueue, hres]
    | none =>
      obtain ⟨x, hx, hxs⟩ := h
      rcases List.mem_cons.mp hx with hxa | hxr
      · subst hxa
        rw [hres] at hxs
        simp at hxs
      · obtain ⟨c, q2, hq⟩ := ih ⟨x, hxr, hxs⟩
        refine ⟨c, q2, ?_⟩
        simp only [checkOverrideQueue, hres, hq]

/-- C3: whenever some entry of the override queue resolves to ready
content, getNextItem returns an item from the override tier, and the
scheduled/rotation tiers are untouched: the database (slots, settings,
log, content) and the rotation cursor are exactly those of the input
state, even if the rotation tier has a ready match. -/
theorem getNextItem_override_wins (st : SchedState) (now rng : Nat)
    (h : ∃ x ∈ st.overrideQueue, (resolveReady st.db x.contentId).isSome) :
    ∃ item, (getNextItem st now rng).1 = some item ∧ item.source = "override"
      ∧ (getNextItem st now rng).2.db = st.db
      ∧ (getNextItem st now rng).2.rotationCursor = st.rotationCursor := by
  obtain ⟨c, q2, hq⟩ := ovq_some_of_mem st.db st.overrideQueue h
  refine ⟨toItem c "override", ?_, rfl, ?_, ?_⟩ <;>
    simp [getNextItem, hq, toItem]

/-- Witness for C3: one resolvable override entry, while the rotation
pattern also has a ready song match. -/
theorem getNextItem_override_wins_witness :
    ∃ item,
      (getNextItem
          ⟨[⟨"o1", "c1", "Song One", "song", false⟩], 0,
           ⟨[cSong1], [],
            [⟨"r0", 0, "song", none, some "sequential", "default"⟩], [], []⟩⟩
          1000 0).1 = some item
      ∧ item.source = "override"
      ∧ (getNextItem
          ⟨[⟨"o1", "c1", "Song One", "song", false⟩], 0,
           ⟨[cSong1], [],
            [⟨"r0", 0, "song", none, some "sequential", "default"⟩], [], []⟩⟩
          1000 0).2.db =
          ⟨[cSong1], [], [⟨"r0", 0, "song", none, some "sequential", "default"⟩], [], []⟩
      ∧ (getNextItem
          ⟨[⟨"o1", "c1", "Song One", "song", false⟩], 0,
           ⟨[cSong1], [],
            [⟨"r0", 0, "song", none, some "sequential", "default"⟩], [], []⟩⟩
          1000 0).2.rotationCursor = 0 :=
  getNextItem_override_wins
    ⟨[⟨"o1", "c1", "Song One", "song", false⟩], 0,
     ⟨[cSong1], [], [⟨"r0", 0, "song", none, some "sequential", "default"⟩], [], []⟩⟩
    1000 0 (by decide)

/-- If the scheduled tier yields nothing, it leaves the database
untouched (slots are deleted only on a successful pinned resolution). -/
theorem scheduled_none_db (db : DB) (now rng : Nat)
    (h : (checkScheduledSlots db now rng).1 = none) :
    (checkScheduledSlots db now rng).2 = db := by
  unfold checkScheduledSlots at h ⊢
  cases hpick : pickSlot (db.scheduleSlots.filter (slotInWindow now)) with
  | none => rfl
  | some slot =>
    rw [hpick] at h
    dsimp only at h ⊢
    cases hres : (if strTruthy slot.contentId then resolveReady db (slot.contentId.getD "") else none) with
    | some c =>
      rw [hres] at h
      simp at h
    | none =>
      cases hct : slot.contentType with
      | none => rfl
      | some t =>
        dsimp only
        split
        · rfl
        · rfl

theorem find?_append_none (l1 l2 : List (String × Nat)) (p : String × Nat → Bool)
    (h : l1.find? p = none) : (l1 ++ l2).find? p = l2.find? p := by
  induction l1 with
  | nil => rfl
  | cons a rest ih =>
    rw [List.find?_cons] at h
    cases hp : p a with
    | true => rw [hp] at h; simp at h
    | false =>
      rw [hp] at h
      rw [List.cons_append, List.find?_cons, hp]
      exact ih h

theorem find?_mapset (l : List (String × Nat)) (c : Nat)
    (h : ¬l.find? (fun p => p.1 = "rotationCursor") = none) :
    (l.map (fun p => if p.1 = "rotationCursor" then (p.1, c) else p)).find?
        (fun p => p.1 = "rotationCursor") = some ("rotationCursor", c) := by
  induction l with
  | nil => simp at h
  | cons a rest ih =>
    by_cases ha : a.1 = "rotationCursor"
    · simp [List.find?_cons, ha]
    · simp only [List.map_cons, if_neg ha, List.find?_cons]
      simp only [List.find?_cons] at h
      simp only [ha, decide_False] at h ⊢
      exact ih h

/-- After persistCursor the settings table holds exactly the new cursor
under the rotationCursor key. -/
theorem persistCursor_find (db : DB) (c : Nat) :
    (persistCursor db c).settings.find? (fun p => p.1 = "rotationCursor") =
      some ("rotationCursor", c) := by
  unfold persistCursor
  cases hfind : db.settings.find? (fun p => p.1 = "rotationCursor") with
  | some q =>
    dsimp only
    exact find?_mapset db.settings c (by rw [hfind]; simp)
  | none =>
    dsimp only
    rw [find?_append_none db.settings _ _ hfind]
    simp [List.find?_cons]

/-- C4: when the override queue is empty and the scheduled tier yields
nothing, a getNextItem call whose rotation scan resolves at offset i
from the cursor returns that item, sets the cursor to
(cursor + i + 1) mod pattern length, persists exactly that value under
the rotationCursor settings key before returning, and a Scheduler
constructed afterwards over the resulting database starts from the
persisted cursor. -/
theorem getNextItem_rotation_advances_and_persists (st : SchedState) (now rng i : Nat)
    (item : ScheduledItem)
    (hq : st.overrideQueue = [])
    (hs : (checkScheduledSlots st.db now rng).1 = none)
    (hscan : rotationFind st.db rng (sortedPattern st.db) st.rotationCursor
        (List.range (sortedPattern st.db).length) = some (i, item)) :
    (getNextItem st now rng).1 = some item
    ∧ (getNextItem st now rng).2.rotationCursor =
        (st.rotationCursor + i + 1) % (sortedPattern st.db).length
    ∧ (getNextItem st now rng).2.db.settings.find? (fun p => p.1 = "rotationCursor") =
        some ("rotationCursor", (st.rotationCursor + i + 1) % (sortedPattern st.db).length)
    ∧ (mkScheduler (getNextItem st now rng).2.db).rotationCursor =
        (st.rotationCursor + i + 1) % (sortedPattern st.db).length := by
  have hcasc : getNextItem st now rng =
      checkRotation ⟨[], st.rotationCursor, st.db⟩ rng := by
    have hdb2 : (checkScheduledSlots st.db now rng).2 = st.db :=
      scheduled_none_db st.db now rng hs
    obtain ⟨q, cur, db⟩ := st
    simp only at hq hs hdb2 ⊢
    subst hq
    unfold getNextItem
    dsimp only [checkOverrideQueue]
    rw [hs, hdb2]
  have hrot : checkRotation ⟨[], st.rotationCursor, st.db⟩ rng =
      (some item,
       ⟨[], (st.rotationCursor + i + 1) % (sortedPattern st.db).length,
        persistCursor st.db ((st.rotationCursor + i + 1) % (sortedPattern st.db).length)⟩) := by
    have hne : ¬(sortedPattern st.db).isEmpty = true := by
      intro he
      have h0 : sortedPattern st.db = [] := List.isEmpty_iff.mp he
      rw [h0] at hscan
      simp [rotationFind] at hscan
    unfold checkRotation
    dsimp only
    rw [if_neg hne, hscan]
  rw [hcasc, hrot]
  refine ⟨rfl, rfl, persistCursor_find st.db _, ?_⟩
  unfold mkScheduler
  dsimp only
  rw [persistCursor_find st.db ((st.rotationCursor + i + 1) % (sortedPattern st.db).length)]

/-- Witness for C4: with the 7-step pattern and cursor 0, the first
call resolves at step 0, advances the cursor to 1, persists 1, and a
restarted Scheduler resumes from 1, not 0. -/
theorem getNextItem_rotation_advances_and_persists_witness :
    (getNextItem (mkScheduler rotDb7) 1000 0).1 = some (toItem cSong1 "rotation")
    ∧ (getNextItem (mkScheduler rotDb7) 1000 0).2.rotationCursor = 1
    ∧ (getNextItem (mkScheduler rotDb7) 1000 0).2.db.settings.find?
        (fun p => p.1 = "rotationCursor") = some ("rotationCursor", 1)
    ∧ (mkScheduler (getNextItem (mkScheduler rotDb7) 1000 0).2.db).rotationCursor = 1 := by
  have h := getNextItem_rotation_advances_and_persists (mkScheduler rotDb7) 1000 0 0
    (toItem cSong1 "rotation") rfl (by decide) (by decide)
  refine ⟨h.1, ?_, ?_, ?_⟩
  · rw [h.2.1]; decide
  · rw [h.2.2.1]; decide
  · rw [h.2.2.2]; decide

theorem lrpLoop_eq_best (db : DB) : ∀ (l : List Content) (a : Content) (m : Nat),
    lrpLoop db l (some a, some m) = (some (lrpBest db a m l).1, some (lrpBest db a m l).2) := by
  intro l
  induction l with
  | nil => intro a m; rfl
  | cons c rest ih =>
    intro a m
    by_cases h : lastPlayTime db c.id < m
    · simp only [lrpLoop, lrpBest, if_pos h]
      exact ih c (lastPlayTime db c.id)
    · simp only [lrpLoop, lrpBest, if_neg h]
      exact ih a m

theorem lrpPick_eq (db : DB) (a : Content) (l : List Content) :
    lrpPick db (a :: l) = some (lrpBest db a (lastPlayTime db a.id) l).1 := by
  unfold lrpPick
  show (match (lrpLoop db l (some a, some (lastPlayTime db a.id))).1 with
    | some c => some c
    | none => (a :: l).head?) = _
  rw [lrpLoop_eq_best db l a (lastPlayTime db a.id)]

theorem lrpBest_mem (db : DB) : ∀ (l : List Content) (a : Content) (m : Nat),
    (lrpBest db a m l).1 = a ∨ (lrpBest db a m l).1 ∈ l := by
  intro l
  induction l with
  | nil => intro a m; left; rfl
  | cons c rest ih =>
    intro a m
    by_cases h : lastPlayTime db c.id < m
    · simp only [lrpBest, if_pos h]
      rcases ih c (lastPlayTime db c.id) with h1 | h1
      · right; rw [h1]; exact List.mem_cons_self c rest
      · right; exact List.mem_cons_of_mem c h1
    · simp only [lrpBest, if_neg h]
      rcases ih a m with h1 | h1
      · left; exact h1
      · right; exact List.mem_cons_of_mem c h1

theorem lrpBest_le (db : DB) : ∀ (l : List Content) (a : Content) (m : Nat),
    (lrpBest db a m l).2 ≤ m ∧ ∀ q ∈ l, (lrpBest db a m l).2 ≤ lastPlayTime db q.id := by
  intro l
  induction l with
  | nil => intro a m; exact ⟨Nat.le_refl m, by intro q hq; simp at hq⟩
  | cons c rest ih =>
    intro a m
    by_cases h : lastPlayTime db c.id < m
    · simp only [lrpBest, if_pos h]
      obtain ⟨h1, h2⟩ := ih c (lastPlayTime db c.id)
      refine ⟨Nat.le_trans h1 (Nat.le_of_lt h), ?_⟩
      intro q hq
      rcases List.mem_cons.mp hq with hq | hq
      · subst hq; exact h1
      · exact h2 q hq
    · simp only [lrpBest, if_neg h]
      obtain ⟨h1, h2⟩ := ih a m
      refine ⟨h1, ?_⟩
      intro q hq
      rcases List.mem_cons.mp hq with hq | hq
      · subst hq
        exact Nat.le_trans h1 (Nat.le_of_not_lt h)
      · exact h2 q hq

theorem lrpBest_snd_eq (db : DB) : ∀ (l : List Content) (a : Content),
    (lrpBest db a (lastPlayTime db a.id) l).2 =
      lastPlayTime db (lrpBest db a (lastPlayTime db a.id) l).1.id := by
  intro l
  induction l with
  | nil => intro a; rfl
  | cons c rest ih =>
    intro a
    by_cases h : lastPlayTime db c.id < lastPlayTime db a.id
    · simp only [lrpBest, if_pos h]
      exact ih c
    · simp only [lrpBest, if_neg h]
      exact ih a

theorem lrpBest_first (db : DB) : ∀ (l : List Content) (a : Content),
    (a :: l).find?
        (fun q => lastPlayTime db q.id = (lrpBest db a (lastPlayTime db a.id) l).2) =
      some (lrpBest db a (lastPlayTime db a.id) l).1 := by
  intro l
  induction l with
  | nil =>
    intro a
    simp [lrpBest, List.find?_cons]
  | cons c rest ih =>
    intro a
    by_cases h : lastPlayTime db c.id < lastPlayTime db a.id
    · simp only [lrpBest, if_pos h]
      have hle := (lrpBest_le db rest c (lastPlayTime db c.id)).1
      have hne : ¬(lastPlayTime db a.id =
          (lrpBest db c (lastPlayTime db c.id) rest).2) := by omega
      rw [List.find?_cons, decide_eq_false hne]
      exact ih c
    · simp only [lrpBest, if_neg h]
      have hle := (lrpBest_le db rest a (lastPlayTime db a.id)).1
      by_cases ha : lastPlayTime db a.id = (lrpBest db a (lastPlayTime db a.id) rest).2
      · have hia := ih a
        rw [List.find?_cons, decide_eq_true ha] at hia ⊢
        exact hia
      · have hnc : ¬(lastPlayTime db c.id = (lrpBest db a (lastPlayTime db a.id) rest).2) := by
          intro hc
          have hge := Nat.le_of_not_lt h
          omega
        have hia := ih a
        rw [List.find?_cons, decide_eq_false ha] at hia
        rw [List.find?_cons, decide_eq_false ha, List.find?_cons, decide_eq_false hnc]
        exact hia

theorem maxStarted_pos (l : List PlaybackEntry) (hl : l ≠ [])
    (hpos : ∀ e ∈ l, 0 < e.startedAt) : ∃ m, maxStarted l = some m ∧ 0 < m := by
  induction l with
  | nil => exact absurd rfl hl
  | cons e rest ih =>
    cases hr : rest with
    | nil =>
      refine ⟨e.startedAt, ?_, hpos e (List.mem_cons_self e rest)⟩
      subst hr
      rfl
    | cons f rest2 =>
      rw [← hr]
      have hrne : rest ≠ [] := by rw [hr]; intro hc; cases hc
      obtain ⟨m, hm, hmpos⟩ := ih (by rw [hr] at hrne ⊢; exact hrne)
        (fun x hx => hpos x (List.mem_cons_of_mem e hx))
      refine ⟨max e.startedAt m, ?_,
        Nat.lt_of_lt_of_le hmpos (Nat.le_max_right e.startedAt m)⟩
      simp only [maxStarted, hm]

/-- With all log times positive, a candidate has playTime 0 exactly when
it has no playback-log row. -/
theorem lastPlayTime_zero_iff (db : DB) (cid : String)
    (hpos : ∀ e ∈ db.playbackLog, 0 < e.startedAt) :
    (lastPlayTime db cid = 0 ↔
      db.playbackLog.filter (fun e => e.contentId = some cid) = []) := by
  unfold lastPlayTime
  cases hl : db.playbackLog.filter (fun e => e.contentId = some cid) with
  | nil => simp [maxStarted]
  | cons e rest =>
    have hmem : ∀ x ∈ e :: rest, 0 < x.startedAt := by
      intro x hx
      have : x ∈ db.playbackLog.filter (fun e => e.contentId = some cid) := by
        rw [hl]; exact hx
      exact hpos x (List.mem_of_mem_filter this)
    obtain ⟨m, hm, hmpos⟩ := maxStarted_pos (e :: rest) (by intro hc; cases hc) hmem
    rw [hm]
    dsimp only
    constructor
    · intro h0; omega
    · intro hc; cases hc

theorem readyOfType_file (db : DB) (ty : String) :
    ∀ c ∈ readyOfType db ty, strTruthy c.filePath = true := by
  intro c hc
  unfold readyOfType at hc
  simpa using List.of_mem_filter hc

/-- C5: under the least-recently-played strategy with positive log
times and a non-empty candidate pool, the picked candidate is a
candidate, its playTime is minimal, it is the first candidate (in
storage order) attaining that playTime, and whenever some candidate has
never been played the picked one has never been played; concretely, for
P played at 1, Q never played, R played at 2, successive selections
with each pick logged before the next yield Q, then P, then R. -/
theorem pickByType_lrp_ranking (db : DB) (rng : Nat) (ty src : String)
    (hne : readyOfType db ty ≠ [])
    (hpos : ∀ e ∈ db.playbackLog, 0 < e.startedAt) :
    (∃ c, c ∈ readyOfType db ty
      ∧ pickByType db rng ty src "least_recently_played" = some (toItem c src)
      ∧ (∀ q ∈ readyOfType db ty, lastPlayTime db c.id ≤ lastPlayTime db q.id)
      ∧ (readyOfType db ty).find?
          (fun q => lastPlayTime db q.id = lastPlayTime db c.id) = some c
      ∧ ((∃ q ∈ readyOfType db ty,
            db.playbackLog.filter (fun e => e.contentId = some q.id) = []) →
          db.playbackLog.filter (fun e => e.contentId = some c.id) = []))
    ∧ pickByType dbPQR 0 "song" "rotation" "least_recently_played"
        = some (toItem cQ "rotation")
    ∧ pickByType (logPlayback dbPQR (toItem cQ "rotation") "l3" 3) 0 "song" "rotation"
        "least_recently_played" = some (toItem cP "rotation")
    ∧ pickByType
        (logPlayback (logPlayback dbPQR (toItem cQ "rotation") "l3" 3)
          (toItem cP "rotation") "l4" 4)
        0 "song" "rotation" "least_recently_played" = some (toItem cR "rotation") := by
  refine ⟨?_, by decide, by decide, by decide⟩
  cases hitems : readyOfType db ty with
  | nil => exact absurd hitems hne
  | cons a l =>
    refine ⟨(lrpBest db a (lastPlayTime db a.id) l).1, ?_, ?_, ?_, ?_, ?_⟩
    · rcases lrpBest_mem db l a (lastPlayTime db a.id) with h1 | h1
      · rw [h1]; exact List.mem_cons_self a l
      · exact List.mem_cons_of_mem a h1
    · have hbm : (lrpBest db a (lastPlayTime db a.id) l).1 ∈ readyOfType db ty := by
        rw [hitems]
        rcases lrpBest_mem db l a (lastPlayTime db a.id) with h1 | h1
        · rw [h1]; exact List.mem_cons_self a l
        · exact List.mem_cons_of_mem a h1
      have hfile := readyOfType_file db ty _ hbm
      simp only [pickByType, hitems]
      simp [lrpPick_eq db a l, hfile]
    · intro q hq
      have hle := lrpBest_le db l a (lastPlayTime db a.id)
      have hsnd := lrpBest_snd_eq db l a
      rcases List.mem_cons.mp hq with hq | hq
      · subst hq
        rw [← hsnd]
        exact hle.1
      · rw [← hsnd]
        exact hle.2 q hq
    · have hfirst := lrpBest_first db l a
      simp only [lrpBest_snd_eq db l a] at hfirst
      exact hfirst
    · intro hq
      obtain ⟨q, hqm, hqe⟩ := hq
      have hq0 : lastPlayTime db q.id = 0 := (lastPlayTime_zero_iff db q.id hpos).mpr hqe
      have hle : lastPlayTime db (lrpBest db a (lastPlayTime db a.id) l).1.id ≤
          lastPlayTime db q.id := by
        have hle2 := lrpBest_le db l a (lastPlayTime db a.id)
        have hsnd := lrpBest_snd_eq db l a
        rcases List.mem_cons.mp hqm with hq | hq
        · subst hq
          rw [← hsnd]
          exact hle2.1
        · rw [← hsnd]
          exact hle2.2 q hq
      have hc0 : lastPlayTime db (lrpBest db a (lastPlayTime db a.id) l).1.id = 0 := by
        omega
      exact (lastPlayTime_zero_iff db _ hpos).mp hc0

/-- Witness for C5 at the concrete P, Q, R database. -/
theorem pickByType_lrp_ranking_witness :
    ∃ c, c ∈ readyOfType dbPQR "song"
      ∧ pickByType dbPQR 7 "song" "rotation" "least_recently_played" = some (toItem c "rotation")
      ∧ (∀ q ∈ readyOfType dbPQR "song",
          lastPlayTime dbPQR c.id ≤ lastPlayTime dbPQR q.id)
      ∧ (readyOfType dbPQR "song").find?
          (fun q => lastPlayTime dbPQR q.id = lastPlayTime dbPQR c.id) = some c
      ∧ ((∃ q ∈ readyOfType dbPQR "song",
            dbPQR.playbackLog.filter (fun e => e.contentId = some q.id) = []) →
          dbPQR.playbackLog.filter (fun e => e.contentId = some c.id) = []) :=
  (pickByType_lrp_ranking dbPQR 7 "song" "rotation" (by decide) (by decide)).1

theorem fetchOnceAgg_foldl (outs : List (Except String (List NewsArticle))) :
    ∀ acc : List NewsArticle,
    (outs.foldl
      (fun acc r =>
        match r with
        | Except.ok as => acc ++ as
        | Except.error _ => acc)
      acc) = acc ++ (outs.map feedContribution).flatten := by
  induction outs with
  | nil => intro acc; simp
  | cons r rest ih =>
    intro acc
    cases r with
    | ok as => simp [List.foldl_cons, feedContribution, ih, List.append_assoc]
    | error e => simp [List.foldl_cons, feedContribution, ih]

theorem fetchOnceAgg_eq_join (outs : List (Except String (List NewsArticle))) :
    fetchOnceAgg outs = (outs.map feedContribution).flatten := by
  unfold fetchOnceAgg
  simpa using fetchOnceAgg_foldl outs []

theorem withRetry_isOk {α : Type} : ∀ attempts : List (Except String α),
    (withRetry attempts).isOk = attempts.any (fun a => a.isOk) := by
  intro attempts
  induction attempts with
  | nil => rfl
  | cons a rest ih =>
    cases rest with
    | nil =>
      cases a <;> simp [withRetry, Except.isOk, Except.toBool]
    | cons b rest2 =>
      cases a with
      | ok v => simp [withRetry, Except.isOk, Except.toBool]
      | error e =>
        simp only [withRetry, List.any_cons]
        rw [ih]
        simp [Except.isOk, Except.toBool]

/-- C7: the aggregate fetch never fails — it is a total function of the
per-feed outcomes — and resolves with the concatenation of the articles
of exactly the feeds that succeeded, in feed order; replacing one
feed's outcome by a failure erases only that feed's own contribution;
and a feed's withRetry result is successful exactly when one of its
bounded attempts succeeded (so a feed fails only after all its retries
failed). -/
theorem fetchOnce_aggregates (feeds : List FeedConfig)
    (outcome : FeedConfig → Except String (List NewsArticle))
    (outs : List (Except String (List NewsArticle)))
    (i : Nat) (e : String) (attempts : List (Except String (List NewsArticle))) :
    fetchOnce feeds outcome =
      (((feeds.filter (fun f => f.enabled)).map outcome).map feedContribution).flatten
    ∧ fetchOnceAgg (outs.set i (Except.error e)) = ((outs.map feedContribution).set i []).flatten
    ∧ (withRetry attempts).isOk = attempts.any (fun a => a.isOk) := by
  refine ⟨fetchOnceAgg_eq_join _, ?_, withRetry_isOk attempts⟩
  rw [fetchOnceAgg_eq_join]
  rw [List.map_set]
  rfl

/-- C6: a production cycle whose ingestion fetch resolves with zero
items returns the all-zero CycleResult with an empty error list; the
synthesis, lyrics and song phases are never entered (the phase trace is
scraping then idle), and the cycle cannot throw: the embedding is a
total function covering every possible fetch outcome. -/
theorem runProductionCycle_zero_items (o : CycleOracle)
    (h : o.fetch = Except.ok []) :
    (runProductionCycle o).1 = ⟨0, 0, 0, 0, []⟩
    ∧ (runProductionCycle o).2 = ["scraping", "idle"] := by
  unfold runProductionCycle
  rw [h]
  exact ⟨rfl, rfl⟩

/-- Witness for C6. -/
theorem runProductionCycle_zero_items_witness :
    (runProductionCycle
      ⟨Except.ok [], Except.ok [], Except.ok [], false, fun _ => Except.ok (), true⟩).1 =
        ⟨0, 0, 0, 0, []⟩
    ∧ (runProductionCycle
      ⟨Except.ok [], Except.ok [], Except.ok [], false, fun _ => Except.ok (), true⟩).2 =
        ["scraping", "idle"] :=
  runProductionCycle_zero_items
    ⟨Except.ok [], Except.ok [], Except.ok [], false, fun _ => Except.ok (), true⟩ rfl

theorem le_pendingMax (es : List RenderEvent) : ∀ p : Nat, p ≤ pendingMax p es := by
  induction es with
  | nil => intro p; exact Nat.le_refl p
  | cons e rest ih =>
    intro p
    cases e <;> exact Nat.le_max_left p _

theorem pendingAfter_append (es1 es2 : List RenderEvent) :
    ∀ p, pendingAfter p (es1 ++ es2) = pendingAfter (pendingAfter p es1) es2 := by
  induction es1 with
  | nil => intro p; rfl
  | cons e rest ih =>
    intro p
    cases e <;> simp only [List.cons_append, pendingAfter] <;> exact ih _

theorem pendingMax_append (es1 es2 : List RenderEvent) :
    ∀ p, pendingMax p (es1 ++ es2) =
      max (pendingMax p es1) (pendingMax (pendingAfter p es1) es2) := by
  induction es1 with
  | nil =>
    intro p
    simp only [List.nil_append, pendingMax, pendingAfter]
    exact (Nat.max_eq_right (le_pendingMax es2 p)).symm
  | cons e rest ih =>
    intro p
    cases e <;> simp only [List.cons_append, List.append_eq, pendingMax, pendingAfter] <;>
      rw [ih] <;> exact (Nat.max_assoc _ _ _).symm

theorem pendingAfter_starts (n : Nat) : ∀ p, pendingAfter p (List.replicate n RenderEvent.start) = p + n := by
  induction n with
  | zero => intro p; rfl
  | succ m ih =>
    intro p
    simp only [List.replicate_succ, pendingAfter, ih]
    omega

theorem pendingAfter_finishes (n : Nat) : ∀ p, pendingAfter p (List.replicate n RenderEvent.finish) = p - n := by
  induction n with
  | zero => intro p; rfl
  | succ m ih =>
    intro p
    simp only [List.replicate_succ, pendingAfter, ih]
    omega

theorem pendingMax_starts (n : Nat) : ∀ p, pendingMax p (List.replicate n RenderEvent.start) = p + n := by
  induction n with
  | zero => intro p; rfl
  | succ m ih =>
    intro p
    simp only [List.replicate_succ, pendingMax, ih]
    omega

theorem pendingMax_finishes (n : Nat) : ∀ p, pendingMax p (List.replicate n RenderEvent.finish) = p := by
  induction n with
  | zero => intro p; rfl
  | succ m ih =>
    intro p
    simp only [List.replicate_succ, pendingMax, ih]
    omega

theorem pendingMax_batch (n : Nat) : pendingMax 0 (batchEvents n) = n ∧
    pendingAfter 0 (batchEvents n) = 0 := by
  constructor
  · unfold batchEvents
    rw [pendingMax_append, pendingAfter_starts, pendingMax_starts, pendingMax_finishes]
    omega
  · unfold batchEvents
    rw [pendingAfter_append, pendingAfter_starts, pendingAfter_finishes]
    omega

theorem chunks2_length_le {α : Type} : ∀ l : List α, ∀ b ∈ chunks2 l, b.length ≤ 2 := by
  intro l
  induction l using chunks2.induct with
  | case1 => intro b hb; simp [chunks2] at hb
  | case2 a =>
    intro b hb
    simp only [chunks2, List.mem_singleton] at hb
    subst hb
    simp
  | case3 a b rest ih =>
    intro x hx
    simp only [chunks2, List.mem_cons] at hx
    rcases hx with hx | hx
    · subst hx; simp
    · exact ih x hx

theorem pendingMax_join_batches : ∀ (bs : List (List GeneratedLyrics)),
    (∀ b ∈ bs, b.length ≤ 2) →
    pendingMax 0 ((bs.map (fun b => batchEvents b.length)).flatten) ≤ 2 := by
  intro bs
  induction bs with
  | nil => intro _; simp [pendingMax]
  | cons b rest ih =>
    intro h
    simp only [List.map_cons, List.flatten_cons]
    rw [pendingMax_append, (pendingMax_batch b.length).2]
    have h1 : pendingMax 0 (batchEvents b.length) ≤ 2 := by
      rw [(pendingMax_batch b.length).1]
      exact h b (List.mem_cons_self b rest)
    have h2 := ih (fun x hx => h x (List.mem_cons_of_mem b hx))
    omega

/-- C8: during the rendering phase of a single production cycle the
in-flight render counter pendingGeneration never exceeds
SUNO_CONCURRENCY = 2 at any point of the generateSongBatch execution,
across the whole cycle (every batch of the loop, up to an arbitrary
break point) and not just within one batch. -/
theorem pendingGeneration_bounded (lyrics : List GeneratedLyrics) (k : Nat) :
    pendingMax 0 (cycleRenderTrace lyrics k) ≤ SUNO_CONCURRENCY := by
  unfold cycleRenderTrace SUNO_CONCURRENCY
  apply pendingMax_join_batches
  intro b hb
  exact chunks2_length_le lyrics b (List.mem_of_mem_take hb)

end WarRadio
